import Mathlib

/-!
# Verification of the F-1 visa slot monitor (`main.py`)

Shallow embedding of the single-file polling-and-diff monitor:
fetch a page, classify its content into a status label, diff against the
persisted state map, notify on change, persist, repeat.

Python dictionaries (`dict[str, str]`) are modelled as insertion-ordered
association lists: `dictGet` is `d.get(k)`, `dictSet` is `d[k] = v`
(overwrite in place, append if absent).  External collaborators
(the HTTP library, the Mailjet client, the JSON codec, the file system and
the clock) are modelled explicitly; every function of the repository is
translated from the source.
-/

namespace F1Monitor

/-- The model of a Python `dict[str, str]`: an insertion-ordered association
list with (by construction) at most one entry per key. -/
abbrev StateMap := List (String × String)

/-- `d.get(k)`: the value stored at `k`, or `none`. -/
def dictGet (d : StateMap) (k : String) : Option String :=
  match d with
  | [] => none
  | (k', v) :: rest => if k' = k then some v else dictGet rest k

/-- `d[k] = v`: overwrite the entry for `k` in place, appending a fresh
entry at the end when `k` is absent (Python dict insertion order). -/
def dictSet (d : StateMap) (k : String) (v : String) : StateMap :=
  match d with
  | [] => [(k, v)]
  | (k', v') :: rest => if k' = k then (k, v) :: rest else (k', v') :: dictSet rest k v

/-- Python's substring test `needle in haystack` on `str`: contiguous
subsequence of the character sequence. -/
def pyIn (needle haystack : String) : Bool :=
  decide (needle.data <:+: haystack.data)

/-- Python's `str.lower()` (the phrases matched are ASCII, so ASCII
lowercasing is the relevant fragment). -/
def pyLower (s : String) : String :=
  ⟨s.data.map Char.toLower⟩

/-- The fixed ordered list of negative markers scanned by
`interpret_availability` (`main.py` lines 108-114). -/
def negatives : List String :=
  ["no appointments are available",
   "no appointment available",
   "there are no appointments available",
   "no appointment times available",
   "currently no appointments available"]

/-- `interpret_availability` (`main.py` lines 97-119): `"unknown"` on empty
text, `"no_slots"` when the lower-cased text contains a negative marker,
`"possible_slots"` otherwise.  The `for n in negatives: if n in low: return`
loop is the existence of a matching phrase, scanned in order. -/
def interpret_availability (html_text : String) : String :=
  if html_text = "" then "unknown"
  else
    let low := pyLower html_text
    if negatives.any (fun n => pyIn n low) then "no_slots"
    else "possible_slots"

/-- Reference classifier, following the specification text word for word:
"lower-case the text; if empty, return `unknown`; else scan a fixed ordered
list of negative phrases; if any phrase is a substring, return `no_slots`;
otherwise return `possible_slots`". -/
def interpretAvailabilityRef (text : String) : String :=
  let low := pyLower text
  if low = "" then "unknown"
  else if negatives.any (fun n => pyIn n low) then "no_slots"
  else "possible_slots"

/-- Python's `str.strip()`: drop leading and trailing whitespace. -/
def pyStrip (s : String) : String :=
  ⟨(((s.data.dropWhile Char.isWhitespace).reverse).dropWhile
      Char.isWhitespace).reverse⟩

/-- Outcome of one HTTP GET attempt, as seen by `fetch_page`:
`requests.get` either returns a response whose `raise_for_status()` passes
(success with the page text), returns a non-success status
(`raise_for_status()` raises), or raises itself (connection error or
timeout). -/
inductive HttpOutcome
  | success (text : String)
  | httpError
  | netError
deriving DecidableEq

/-- `fetch_page` (`main.py` lines 87-95).  `responses` is the sequence of
outcomes the network would produce for successive GET attempts on
`url.strip()`; the function issues exactly one request, so only the head is
consulted.  Any exception is caught and the empty string returned. -/
def fetch_page (url : String) (responses : List HttpOutcome) : String :=
  match pyStrip url, responses with
  | _, [] => ""
  | _, HttpOutcome.success text :: _ => text
  | _, HttpOutcome.httpError :: _ => ""
  | _, HttpOutcome.netError :: _ => ""

/-- The loop body of `check_all` (`main.py` lines 123-130): strip the URL,
skip it when empty, otherwise store the classification of the fetched text
in the `results` dict.  `fetch` gives the text `fetch_page` returns for a
stripped URL.  (`check_all` below accepts and ignores `last_state`, exactly
as in the source.) -/
def checkStep (fetch : String → String) (results : StateMap) (url : String) :
    StateMap :=
  let url := pyStrip url
  if url = "" then results
  else dictSet results url (interpret_availability (fetch url))

/-- The full `check_all` loop: fold `checkStep` over the URL list starting
from the empty `results` dict. -/
def check_all (fetch : String → String) (consulate_urls : List String)
    (last_state : StateMap) : StateMap :=
  consulate_urls.foldl (checkStep fetch) []

/-- The diff step of `run_loop` (`main.py` lines 154-160): walk the new
results in order; for each `(url, new_status)`, read `old_status =
state.get(url)`, record `(old_status or "unknown", new_status)` in `changes`
when `old_status != new_status`, and set `state[url] = new_status`
unconditionally.  Returns the `changes` dict (in insertion order) and the
updated state. -/
def diffStep (new : List (String × String)) (state : StateMap) :
    List (String × String × String) × StateMap :=
  match new with
  | [] => ([], state)
  | (url, newStatus) :: rest =>
    let oldStatus := dictGet state url
    let state' := dictSet state url newStatus
    let tail := diffStep rest state'
    if oldStatus ≠ some newStatus then
      ((url, oldStatus.getD "unknown", newStatus) :: tail.1, tail.2)
    else
      tail

/-- The fixed safety notice (`main.py` lines 43-46). -/
def SAFETY_NOTICE : String :=
  "This is a read-only reminder alert. No login or booking was attempted by this monitor.\nPlease open the link and log in manually if you want to book. Avoid multiple quick logins."

/-- Python's `"\n".join(lines)`. -/
def joinLines : List String → String
  | [] => ""
  | [l] => l
  | l :: rest => l ++ "\n" ++ joinLines rest

/-- `build_message` (`main.py` lines 133-147): header lines, safety notice,
one block of four lines per change record, and a timestamp line.  `now`
stands for `datetime.utcnow().isoformat()`. -/
def build_message (now : String) (changes : List (String × String × String)) :
    String :=
  let lines :=
    ["F-1 Visa Availability Change Detected", "", SAFETY_NOTICE, "", "Changes:"]
    ++ changes.flatMap (fun c =>
         ["- " ++ c.1, "  previous: " ++ c.2.1, "  now:      " ++ c.2.2, ""])
    ++ ["Checked at: " ++ now ++ " UTC"]
  joinLines lines

/-- The four Mailjet configuration values read from the environment
(`main.py` lines 23-26); `none` models an unset variable. -/
structure MailConfig where
  MJ_PUBLIC : Option String
  MJ_PRIVATE : Option String
  MJ_SENDER_EMAIL : Option String
  MJ_RECEIVER_EMAIL : Option String

/-- Python truthiness of an optional environment string: `None` and `""`
are falsy. -/
def envTruthy : Option String → Bool
  | none => false
  | some s => s ≠ ""

/-- The credential check of `send_mail` (`main.py` line 64):
`MJ_PUBLIC and MJ_PRIVATE and MJ_SENDER_EMAIL and MJ_RECEIVER_EMAIL`. -/
def mjConfigured (cfg : MailConfig) : Bool :=
  envTruthy cfg.MJ_PUBLIC && envTruthy cfg.MJ_PRIVATE
    && envTruthy cfg.MJ_SENDER_EMAIL && envTruthy cfg.MJ_RECEIVER_EMAIL

/-- Outcome of the remote Mailjet call `api.send.create(data=data)`:
either it returns a response (with some status code, which `send_mail`
only prints), or it raises. -/
inductive RemoteOutcome
  | response (status_code : Option Nat)
  | raises
deriving DecidableEq

/-- `send_mail` (`main.py` lines 63-85).  Returns
`(reported success, a send was attempted)`: with incomplete credentials it
skips the send and returns `False`; if the remote call raises, the
exception is caught and `False` returned; otherwise it returns `True`
regardless of the response's status code. -/
def send_mail (cfg : MailConfig) (remote : RemoteOutcome) : Bool × Bool :=
  if ¬ mjConfigured cfg then (false, false)
  else
    match remote with
    | RemoteOutcome.response _ => (true, true)
    | RemoteOutcome.raises => (false, true)

/-- Lowercase hexadecimal digit, as produced by Python's `'{0:04x}'.format`
inside the JSON encoder. -/
def hexDigit (n : Nat) : Char :=
  if n < 10 then Char.ofNat (48 + n) else Char.ofNat (87 + n)

/-- Four lowercase hex digits of `n < 0x10000` (most significant first). -/
def hex4 (n : Nat) : List Char :=
  [hexDigit (n / 4096 % 16), hexDigit (n / 256 % 16),
   hexDigit (n / 16 % 16), hexDigit (n % 16)]

/-- JSON escaping of one character, following CPython's
`py_encode_basestring_ascii` (the default `ensure_ascii=True` used by
`json.dump` in `save_state`): named escapes for the two-character forms,
`\uXXXX` for other control characters and all non-ASCII characters, and a
UTF-16 surrogate pair for characters beyond the basic plane. -/
def escChar (c : Char) : List Char :=
  if c = '"' then ['\\', '"']
  else if c = '\\' then ['\\', '\\']
  else if c = '\n' then ['\\', 'n']
  else if c = '\r' then ['\\', 'r']
  else if c = '\t' then ['\\', 't']
  else if c.toNat = 8 then ['\\', 'b']
  else if c.toNat = 12 then ['\\', 'f']
  else if c.toNat < 32 then '\\' :: 'u' :: hex4 c.toNat
  else if c.toNat < 127 then [c]
  else if c.toNat < 65536 then '\\' :: 'u' :: hex4 c.toNat
  else
    let n := c.toNat - 65536
    ('\\' :: 'u' :: hex4 (55296 + n / 1024)) ++ ('\\' :: 'u' :: hex4 (56320 + n % 1024))

/-- JSON escaping of a character sequence. -/
def escapeData (l : List Char) : List Char :=
  match l with
  | [] => []
  | c :: rest => escChar c ++ escapeData rest

/-- One `indent=2` object member: two spaces of indent, the quoted escaped
key, `": "`, and the quoted escaped value. -/
def entryData (k v : String) : List Char :=
  ' ' :: ' ' :: '"' :: (escapeData k.data ++ '"' :: ':' :: ' ' :: '"' :: (escapeData v.data ++ ['"']))

/-- The members of a non-empty object, joined by `",\n"` (the `indent=2`
item separator of `json.dump`). -/
def entriesData : StateMap → List Char
  | [] => []
  | [(k, v)] => entryData k v
  | (k, v) :: rest => entryData k v ++ ',' :: '\n' :: entriesData rest

/-- The exact character stream `json.dump(state, f, indent=2)` writes: `{}`
for the empty dict, otherwise the members between `{\n` and `\n}`. -/
def encodeStateData (m : StateMap) : List Char :=
  match m with
  | [] => ['{', '}']
  | _ => '{' :: '\n' :: (entriesData m ++ ['\n', '}'])

/-- The persisted form of a State Map, as a string. -/
def encodeState (m : StateMap) : String :=
  ⟨encodeStateData m⟩

/-- Inverse of `hexDigit` (accepting both cases, as `json.load` does). -/
def parseHexDigit (c : Char) : Option Nat :=
  if 48 ≤ c.toNat ∧ c.toNat ≤ 57 then some (c.toNat - 48)
  else if 97 ≤ c.toNat ∧ c.toNat ≤ 102 then some (c.toNat - 87)
  else if 65 ≤ c.toNat ∧ c.toNat ≤ 70 then some (c.toNat - 55)
  else none

/-- Value of four hex digits (most significant first). -/
def parseHex4 (h1 h2 h3 h4 : Char) : Option Nat := do
  let n1 ← parseHexDigit h1
  let n2 ← parseHexDigit h2
  let n3 ← parseHexDigit h3
  let n4 ← parseHexDigit h4
  some (n1 * 4096 + n2 * 256 + n3 * 16 + n4)

/-- The two-character escapes `json.load` resolves (restricted to those the
encoder emits): `\"`, `\\`, `\n`, `\r`, `\t`, `\b`, `\f`. -/
def simpleEscape (e : Char) : Option Char :=
  if e = '"' then some '"'
  else if e = '\\' then some '\\'
  else if e = 'n' then some '\n'
  else if e = 'r' then some '\r'
  else if e = 't' then some '\t'
  else if e = 'b' then some (Char.ofNat 8)
  else if e = 'f' then some (Char.ofNat 12)
  else none

/-- Decode a JSON string body (the part after the opening quote) up to and
including the closing quote, resolving escapes and surrogate pairs; returns
the decoded characters and the rest of the input.  This is `json.load`'s
string scanner restricted to the strict escapes the encoder emits.  `fuel`
bounds the number of decoding steps; every step consumes at least one input
character, so callers pass the input length. -/
def parseStrBody : Nat → List Char → Option (List Char × List Char)
  | 0, _ => none
  | fuel + 1, l =>
    match l with
    | [] => none
    | c :: rest =>
      if c = '"' then some ([], rest)
      else if c ≠ '\\' then (parseStrBody fuel rest).map (fun p => (c :: p.1, p.2))
      else
        match rest with
        | [] => none
        | e :: rest2 =>
          if e ≠ 'u' then
            match simpleEscape e with
            | none => none
            | some d => (parseStrBody fuel rest2).map (fun p => (d :: p.1, p.2))
          else
            match rest2 with
            | h1 :: h2 :: h3 :: h4 :: rest3 =>
              match parseHex4 h1 h2 h3 h4 with
              | none => none
              | some n =>
                if 55296 ≤ n ∧ n < 56320 then
                  match rest3 with
                  | b1 :: b2 :: g1 :: g2 :: g3 :: g4 :: rest4 =>
                    if b1 = '\\' ∧ b2 = 'u' then
                      match parseHex4 g1 g2 g3 g4 with
                      | none => none
                      | some m =>
                        if 56320 ≤ m ∧ m < 57344 then
                          (parseStrBody fuel rest4).map (fun p =>
                            (Char.ofNat (65536 + (n - 55296) * 1024 + (m - 56320)) :: p.1, p.2))
                        else none
                    else none
                  | _ => none
                else if 56320 ≤ n ∧ n < 57344 then none
                else (parseStrBody fuel rest3).map (fun p => (Char.ofNat n :: p.1, p.2))
            | _ => none

/-- Decode one `indent=2` object member (see `entryData`); returns the key,
the value, and the rest of the input. -/
def parseEntry (l : List Char) : Option ((String × String) × List Char) :=
  match l with
  | a1 :: a2 :: a3 :: rest =>
    if a1 = ' ' ∧ a2 = ' ' ∧ a3 = '"' then
      match parseStrBody rest.length rest with
      | none => none
      | some (k, rest2) =>
        match rest2 with
        | b1 :: b2 :: b3 :: rest3 =>
          if b1 = ':' ∧ b2 = ' ' ∧ b3 = '"' then
            match parseStrBody rest3.length rest3 with
            | none => none
            | some (v, rest4) => some ((⟨k⟩, ⟨v⟩), rest4)
          else none
        | _ => none
    else none
  | _ => none

/-- Decode the members of a non-empty object, each followed by either the
`",\n"` separator or the closing `"\n}"`, which must end the input.  `fuel`
bounds the number of members (the caller passes the input length). -/
def parseEntries : Nat → List Char → Option StateMap
  | 0, _ => none
  | fuel + 1, l =>
    match parseEntry l with
    | none => none
    | some (kv, rest) =>
      match rest with
      | c1 :: c2 :: rest2 =>
        if c1 = ',' ∧ c2 = '\n' then (parseEntries fuel rest2).map (fun m => kv :: m)
        else if c1 = '\n' ∧ c2 = '}' ∧ rest2 = [] then some [kv]
        else none
      | _ => none

/-- `json.load` restricted to the persisted State Map format: the empty
object or a `{\n … \n}` object of string members.  Returns `none` where
`json.load` would raise on this grammar (`load_state`'s `except` path). -/
def decodeState (s : String) : Option StateMap :=
  match s.data with
  | [c1, c2] => if c1 = '{' ∧ c2 = '}' then some [] else none
  | c1 :: c2 :: rest =>
    if c1 = '{' ∧ c2 = '\n' then parseEntries s.length rest else none
  | _ => none

/-- What opening and reading the state file produced: `failure` when the
file is missing or unreadable (`open` raises), `success content`
otherwise. -/
inductive ReadResult
  | failure
  | success (content : String)
deriving DecidableEq

/-- `load_state` (`main.py` lines 50-55): return the parsed file, and the
empty dict on any exception — a failed `open` or a failed `json.load`. -/
def load_state (r : ReadResult) : StateMap :=
  match r with
  | ReadResult.failure => []
  | ReadResult.success content =>
    match decodeState content with
    | none => []
    | some m => m

/-- The two files `save_state` touches: the state file and its `.tmp`
sibling; `none` means the path does not exist. -/
structure FS where
  stateFile : Option String
  tmpFile : Option String
deriving DecidableEq

/-- First step of `save_state` (`main.py` lines 58-60): write the full
serialized map to the temporary path. -/
def writeTmpStep (fs : FS) (state : StateMap) : FS :=
  { fs with tmpFile := some (encodeState state) }

/-- Second step of `save_state` (`main.py` line 61): `os.replace(tmp,
STATE_FILE)` atomically renames the temporary file over the state file. -/
def replaceStep (fs : FS) : FS :=
  { stateFile := fs.tmpFile, tmpFile := none }

/-- `save_state` (`main.py` lines 57-61): write-to-temp then atomic
rename. -/
def save_state (fs : FS) (state : StateMap) : FS :=
  replaceStep (writeTmpStep fs state)

/-- Reading the state file back from the modelled file system. -/
def readState (fs : FS) : ReadResult :=
  match fs.stateFile with
  | none => ReadResult.failure
  | some content => ReadResult.success content

/-- Observable effects of one iteration of `run_loop`'s body (`main.py`
lines 153-171): the change records, the in-memory state after the diff, how
many times `send_mail` was called and with which message, what `send_mail`
returned, and the file system after the optional `save_state`. -/
structure CycleResult where
  changes : List (String × String × String)
  state : StateMap
  mailCalls : Nat
  message : Option String
  sent : Option Bool
  fs : FS
deriving DecidableEq

/-- One iteration of `run_loop`'s body (`main.py` lines 153-171):
`check_all`, the diff step, then — only when `changes` is non-empty —
`build_message`, one `send_mail` call (whose boolean result only selects a
log line), and `save_state`.  `fetch` is the page text obtained for each
stripped URL, `now` the timestamp string, `remote` the Mailjet outcome and
`fs` the file system at the start of the cycle. -/
def run_cycle (fetch : String → String) (cfg : MailConfig)
    (remote : RemoteOutcome) (now : String) (urls : List String)
    (state : StateMap) (fs : FS) : CycleResult :=
  let new := check_all fetch urls state
  let diffed := diffStep new state
  if diffed.1.isEmpty then
    { changes := diffed.1, state := diffed.2, mailCalls := 0,
      message := none, sent := none, fs := fs }
  else
    let msg := build_message now diffed.1
    { changes := diffed.1, state := diffed.2, mailCalls := 1,
      message := some msg, sent := some (send_mail cfg remote).1,
      fs := save_state fs diffed.2 }

/-! ## Lemmas about the classifier -/

theorem pyLower_eq_empty_iff (s : String) : pyLower s = "" ↔ s = "" := by
  cases s with
  | mk data =>
    simp only [pyLower, String.ext_iff]
    cases data <;> simp

/-! ## Lemmas about the dict model -/

theorem dictGet_dictSet_self (d : StateMap) (k v : String) :
    dictGet (dictSet d k v) k = some v := by
  induction d with
  | nil => simp [dictGet, dictSet]
  | cons hd tl ih =>
    obtain ⟨k', v'⟩ := hd
    by_cases h : k' = k
    · subst h
      simp [dictGet, dictSet]
    · simp [dictSet, h, dictGet, ih]

theorem dictGet_dictSet_ne (d : StateMap) (k v u : String) (h : k ≠ u) :
    dictGet (dictSet d k v) u = dictGet d u := by
  induction d with
  | nil => simp [dictGet, dictSet, h]
  | cons hd tl ih =>
    obtain ⟨k', v'⟩ := hd
    by_cases hk : k' = k
    · subst hk
      simp [dictGet, dictSet, h]
    · simp [dictSet, hk, dictGet, ih]

theorem dictSet_of_get_eq (d : StateMap) (k v : String)
    (h : dictGet d k = some v) : dictSet d k v = d := by
  induction d with
  | nil => simp [dictGet] at h
  | cons hd tl ih =>
    obtain ⟨k', v'⟩ := hd
    by_cases hk : k' = k
    · subst hk
      have hv : v' = v := by simpa [dictGet] using h
      simp [dictSet, hv]
    · simp only [dictGet, if_neg hk] at h
      simp [dictSet, hk, ih h]

theorem mem_keys_dictSet (d : StateMap) (k v u : String) :
    u ∈ (dictSet d k v).map Prod.fst ↔ u = k ∨ u ∈ d.map Prod.fst := by
  induction d with
  | nil => simp [dictSet]
  | cons hd tl ih =>
    obtain ⟨k', v'⟩ := hd
    by_cases hk : k' = k
    · subst hk
      simp [dictSet]
    · simp [dictSet, hk, ih]
      tauto

theorem nodup_keys_dictSet (d : StateMap) (k v : String)
    (h : (d.map Prod.fst).Nodup) : ((dictSet d k v).map Prod.fst).Nodup := by
  induction d with
  | nil => simp [dictSet]
  | cons hd tl ih =>
    obtain ⟨k', v'⟩ := hd
    simp only [List.map_cons, List.nodup_cons] at h
    by_cases hk : k' = k
    · subst hk
      simp [dictSet, h.1, h.2]
    · simp only [dictSet, if_neg hk, List.map_cons, List.nodup_cons]
      refine ⟨fun hmem => ?_, ih h.2⟩
      rcases (mem_keys_dictSet tl k v k').mp hmem with heq | hmem'
      · exact hk heq
      · exact h.1 hmem'

/-! ## Lemmas about the diff step -/

theorem diffStep_snd (url s : String) (rest : List (String × String))
    (st : StateMap) :
    (diffStep ((url, s) :: rest) st).2 = (diffStep rest (dictSet st url s)).2 := by
  simp only [diffStep]
  split <;> rfl

theorem diffStep_get_of_not_mem (new : List (String × String)) (st : StateMap)
    (u : String) (h : ∀ q ∈ new, q.1 ≠ u) :
    dictGet (diffStep new st).2 u = dictGet st u := by
  induction new generalizing st with
  | nil => rfl
  | cons hd rest ih =>
    obtain ⟨url, s⟩ := hd
    have hu : url ≠ u := h (url, s) (List.mem_cons_self _ _)
    rw [diffStep_snd, ih (dictSet st url s) (fun q hq => h q (List.mem_cons_of_mem _ hq)),
      dictGet_dictSet_ne st url s u hu]

theorem diffStep_nochange (new : List (String × String)) (state : StateMap)
    (h : ∀ p ∈ new, dictGet state p.1 = some p.2) :
    diffStep new state = ([], state) := by
  induction new generalizing state with
  | nil => rfl
  | cons hd rest ih =>
    obtain ⟨url, s⟩ := hd
    have hget := h (url, s) (List.mem_cons_self _ _)
    have hset : dictSet state url s = state := dictSet_of_get_eq _ _ _ hget
    simp only [diffStep, hget, hset, ne_eq, not_true_eq_false, if_false, ite_false]
    have := ih state (fun p hp => h p (List.mem_cons_of_mem _ hp))
    simpa using this

/-- The diff step's change records, in closed form: a record is produced for
exactly the pairs whose new label differs from the optional prior entry
(`None` included), and it pairs the prior-or-`"unknown"` label with the new
one. -/
theorem diffStep_changes_eq (new : List (String × String)) (state : StateMap)
    (hnd : (new.map Prod.fst).Nodup) :
    (diffStep new state).1 =
      (new.filter (fun p => decide (dictGet state p.1 ≠ some p.2))).map
        (fun p => (p.1, (dictGet state p.1).getD "unknown", p.2)) := by
  induction new generalizing state with
  | nil => rfl
  | cons hd rest ih =>
    obtain ⟨url, s⟩ := hd
    simp only [List.map_cons, List.nodup_cons] at hnd
    have hne : ∀ p ∈ rest, p.1 ≠ url := by
      intro p hp he
      exact hnd.1 (he ▸ List.mem_map_of_mem Prod.fst hp)
    have hpt : ∀ p ∈ rest, dictGet (dictSet state url s) p.1 = dictGet state p.1 := by
      intro p hp
      exact dictGet_dictSet_ne state url s p.1 (fun he => hne p hp he.symm)
    have hcongr :
        (rest.filter (fun p => decide (dictGet (dictSet state url s) p.1 ≠ some p.2))).map
            (fun p => (p.1, (dictGet (dictSet state url s) p.1).getD "unknown", p.2)) =
          (rest.filter (fun p => decide (dictGet state p.1 ≠ some p.2))).map
            (fun p => (p.1, (dictGet state p.1).getD "unknown", p.2)) := by
      rw [List.filter_congr (fun p hp => by rw [hpt p hp])]
      exact List.map_congr_left
        (fun p hp => by rw [hpt p (List.mem_of_mem_filter hp)])
    by_cases hc : dictGet state url = some s
    · have hset : dictSet state url s = state := dictSet_of_get_eq _ _ _ hc
      simp only [diffStep, hc, hset, ne_eq, not_true_eq_false, if_false, ite_false]
      rw [List.filter_cons_of_neg (by simpa using hc), ih state hnd.2]
    · simp only [diffStep, ne_eq, hc, not_false_eq_true, if_true, ite_true]
      rw [List.filter_cons_of_pos (by simpa using hc), List.map_cons,
        ih (dictSet state url s) hnd.2, hcongr]

theorem diffStep_get_mem (new : List (String × String)) (state : StateMap)
    (u s : String) (hnd : (new.map Prod.fst).Nodup) (hmem : (u, s) ∈ new) :
    dictGet (diffStep new state).2 u = some s := by
  induction new generalizing state with
  | nil => simp at hmem
  | cons hd rest ih =>
    obtain ⟨url, s'⟩ := hd
    simp only [List.map_cons, List.nodup_cons] at hnd
    rcases List.mem_cons.mp hmem with heq | hmem'
    · injection heq with h1 h2
      subst h1
      subst h2
      rw [diffStep_snd,
        diffStep_get_of_not_mem rest (dictSet state u s) u
          (fun q hq he => hnd.1 (he ▸ List.mem_map_of_mem Prod.fst hq)),
        dictGet_dictSet_self]
    · have hu : u ≠ url := by
        intro he
        exact hnd.1 (he ▸ List.mem_map_of_mem Prod.fst hmem')
      rw [diffStep_snd, ih (dictSet state url s') hnd.2 hmem']

/-! ## Lemmas about check_all -/

theorem mem_keys_checkFold (fetch : String → String) (urls : List String)
    (acc : StateMap) (u : String) :
    u ∈ (urls.foldl (checkStep fetch) acc).map Prod.fst ↔
      u ∈ acc.map Prod.fst ∨ (u ≠ "" ∧ u ∈ urls.map pyStrip) := by
  induction urls generalizing acc with
  | nil => simp
  | cons hd rest ih =>
    simp only [List.foldl_cons, List.map_cons, List.mem_cons]
    rw [ih]
    by_cases h : pyStrip hd = ""
    · rw [show checkStep fetch acc hd = acc from by simp [checkStep, h], h]
      constructor
      · rintro (ha | ⟨hne, hmem⟩)
        · exact Or.inl ha
        · exact Or.inr ⟨hne, Or.inr hmem⟩
      · rintro (ha | ⟨hne, heq | hmem⟩)
        · exact Or.inl ha
        · exact absurd heq hne
        · exact Or.inr ⟨hne, hmem⟩
    · rw [show checkStep fetch acc hd
          = dictSet acc (pyStrip hd) (interpret_availability (fetch (pyStrip hd))) from
          by simp [checkStep, h]]
      rw [show (dictSet acc (pyStrip hd) (interpret_availability (fetch (pyStrip hd)))).map Prod.fst
          = (dictSet acc (pyStrip hd) (interpret_availability (fetch (pyStrip hd)))).map Prod.fst from rfl]
      constructor
      · rintro (ha | ⟨hne, hmem⟩)
        · rcases (mem_keys_dictSet acc (pyStrip hd) _ u).mp ha with heq | ha'
          · exact Or.inr ⟨heq ▸ h, Or.inl heq⟩
          · exact Or.inl ha'
        · exact Or.inr ⟨hne, Or.inr hmem⟩
      · rintro (ha | ⟨hne, heq | hmem⟩)
        · exact Or.inl ((mem_keys_dictSet acc (pyStrip hd) _ u).mpr (Or.inr ha))
        · exact Or.inl ((mem_keys_dictSet acc (pyStrip hd) _ u).mpr (Or.inl heq))
        · exact Or.inr ⟨hne, hmem⟩

theorem nodup_keys_checkFold (fetch : String → String) (urls : List String)
    (acc : StateMap) (h : (acc.map Prod.fst).Nodup) :
    ((urls.foldl (checkStep fetch) acc).map Prod.fst).Nodup := by
  induction urls generalizing acc with
  | nil => exact h
  | cons hd rest ih =>
    simp only [List.foldl_cons]
    apply ih
    by_cases he : pyStrip hd = ""
    · simpa [checkStep, he] using h
    · rw [show checkStep fetch acc hd
          = dictSet acc (pyStrip hd) (interpret_availability (fetch (pyStrip hd))) from
          by simp [checkStep, he]]
      exact nodup_keys_dictSet _ _ _ h

theorem check_all_nodup (fetch : String → String) (urls : List String)
    (last : StateMap) : ((check_all fetch urls last).map Prod.fst).Nodup :=
  nodup_keys_checkFold fetch urls [] (by simp)

theorem check_all_keys (fetch : String → String) (urls : List String)
    (last : StateMap) (u : String) :
    u ∈ (check_all fetch urls last).map Prod.fst ↔
      u ≠ "" ∧ u ∈ urls.map pyStrip := by
  rw [check_all, mem_keys_checkFold]
  simp

/-! ## Lemmas about the message -/

theorem pyIn_of_data (s t : String) (h : s.data <:+: t.data) : pyIn s t = true := by
  simpa [pyIn] using h

theorem data_suffix_piece (a b : String) : b.data <:+: (a ++ b).data :=
  ⟨a.data, [], by simp [String.data_append]⟩

theorem joinLines_mem_data (s : String) (l : List String) (h : s ∈ l) :
    s.data <:+: (joinLines l).data := by
  induction l with
  | nil => simp at h
  | cons hd rest ih =>
    rcases List.mem_cons.mp h with heq | hmem
    · subst heq
      cases rest with
      | nil => exact ⟨[], [], by simp [joinLines]⟩
      | cons b bs =>
        rw [show joinLines (s :: b :: bs) = s ++ "\n" ++ joinLines (b :: bs) from rfl,
          String.data_append, String.data_append]
        exact ⟨[], "\n".data ++ (joinLines (b :: bs)).data, by simp⟩
    · cases rest with
      | nil => simp at hmem
      | cons b bs =>
        obtain ⟨p, q, hpq⟩ := ih hmem
        refine ⟨(hd.data ++ "\n".data) ++ p, q, ?_⟩
        rw [show joinLines (hd :: b :: bs) = hd ++ "\n" ++ joinLines (b :: bs) from rfl,
          String.data_append, String.data_append]
        simp only [List.append_assoc]
        rw [← hpq]
        simp

theorem mentions_of_mem_lines (s line : String) (l : List String)
    (hmem : line ∈ l) (hinf : s.data <:+: line.data) :
    s.data <:+: (joinLines l).data :=
  hinf.trans (joinLines_mem_data line l hmem)

/-- Every change record's URL, old label and new label occur verbatim in
the built message. -/
theorem build_message_mentions (now : String)
    (changes : List (String × String × String)) (u o n : String)
    (h : (u, o, n) ∈ changes) :
    pyIn u (build_message now changes) = true ∧
    pyIn o (build_message now changes) = true ∧
    pyIn n (build_message now changes) = true := by
  have hblock : ∀ line ∈ ["- " ++ u, "  previous: " ++ o, "  now:      " ++ n, ""],
      line ∈ (["F-1 Visa Availability Change Detected", "", SAFETY_NOTICE, "", "Changes:"]
        ++ changes.flatMap (fun c =>
            ["- " ++ c.1, "  previous: " ++ c.2.1, "  now:      " ++ c.2.2, ""])
        ++ ["Checked at: " ++ now ++ " UTC"]) := by
    intro line hline
    apply List.mem_append.mpr
    refine Or.inl (List.mem_append.mpr (Or.inr ?_))
    exact List.mem_flatMap.mpr ⟨(u, o, n), h, hline⟩
  refine ⟨pyIn_of_data _ _ ?_, pyIn_of_data _ _ ?_, pyIn_of_data _ _ ?_⟩
  · exact mentions_of_mem_lines u ("- " ++ u) _
      (hblock _ (by simp)) (data_suffix_piece "- " u)
  · exact mentions_of_mem_lines o ("  previous: " ++ o) _
      (hblock _ (by simp)) (data_suffix_piece "  previous: " o)
  · exact mentions_of_mem_lines n ("  now:      " ++ n) _
      (hblock _ (by simp)) (data_suffix_piece "  now:      " n)

/-! ## Lemmas about the JSON codec -/

theorem parseHexDigit_hexDigit (d : Nat) (h : d < 16) :
    parseHexDigit (hexDigit d) = some d := by
  interval_cases d <;> decide

theorem parseHex4_hex4 (n : Nat) (h : n < 65536) :
    parseHex4 (hexDigit (n / 4096 % 16)) (hexDigit (n / 256 % 16))
      (hexDigit (n / 16 % 16)) (hexDigit (n % 16)) = some n := by
  rw [parseHex4,
    parseHexDigit_hexDigit _ (Nat.mod_lt _ (by norm_num)),
    parseHexDigit_hexDigit _ (Nat.mod_lt _ (by norm_num)),
    parseHexDigit_hexDigit _ (Nat.mod_lt _ (by norm_num)),
    parseHexDigit_hexDigit _ (Nat.mod_lt _ (by norm_num))]
  simp only [Option.bind_eq_bind, Option.some_bind, Option.some.injEq]
  omega

theorem char_toNat_valid (c : Char) :
    c.toNat < 55296 ∨ (57344 ≤ c.toNat ∧ c.toNat < 1114112) := by
  have h := c.valid
  simpa [UInt32.isValidChar, Nat.isValidChar, Char.toNat] using h

theorem escapeData_cons (c : Char) (l : List Char) :
    escapeData (c :: l) = escChar c ++ escapeData l := rfl

theorem one_le_escChar_length (c : Char) : 1 ≤ (escChar c).length := by
  by_cases h1 : c = '"'
  · simp [escChar, h1]
  by_cases h2 : c = '\\'
  · simp [escChar, h1, h2]
  by_cases h3 : c = '\n'
  · simp [escChar, h1, h2, h3]
  by_cases h4 : c = '\r'
  · simp [escChar, h1, h2, h3, h4]
  by_cases h5 : c = '\t'
  · simp [escChar, h1, h2, h3, h4, h5]
  by_cases h6 : c.toNat = 8
  · simp [escChar, h1, h2, h3, h4, h5, h6]
  by_cases h7 : c.toNat = 12
  · simp [escChar, h1, h2, h3, h4, h5, h6, h7]
  by_cases h8 : c.toNat < 32
  · simp [escChar, h1, h2, h3, h4, h5, h6, h7, h8, hex4]
  by_cases h9 : c.toNat < 127
  · simp [escChar, h1, h2, h3, h4, h5, h6, h7, h8, h9]
  by_cases h10 : c.toNat < 65536
  · simp [escChar, h1, h2, h3, h4, h5, h6, h7, h8, h9, h10, hex4]
  · simp [escChar, h1, h2, h3, h4, h5, h6, h7, h8, h9, h10, hex4]

theorem length_le_escapeData (l : List Char) :
    l.length ≤ (escapeData l).length := by
  induction l with
  | nil => simp [escapeData]
  | cons c cs ih =>
    rw [escapeData_cons, List.length_append]
    have h := one_le_escChar_length c
    simp only [List.length_cons]
    omega

theorem parseStrBody_surrogate_step (f : Nat) (n m : Nat) (tail rest cs : List Char)
    (hn : 55296 ≤ n ∧ n < 56320) (hm : 56320 ≤ m ∧ m < 57344)
    (hpn : n < 65536) (hpm : m < 65536)
    (ihc : parseStrBody f tail = some (cs, rest)) :
    parseStrBody (f + 1)
        ('\\' :: 'u' :: hex4 n ++ ('\\' :: 'u' :: hex4 m ++ tail)) =
      some (Char.ofNat (65536 + (n - 55296) * 1024 + (m - 56320)) :: cs, rest) := by
  simp [hex4, parseStrBody, parseHex4_hex4 n hpn, parseHex4_hex4 m hpm, hn, hm, ihc]

theorem parseStrBody_escape (l : List Char) : ∀ fuel : Nat, l.length < fuel →
    ∀ rest : List Char,
    parseStrBody fuel (escapeData l ++ '"' :: rest) = some (l, rest) := by
  induction l with
  | nil =>
    intro fuel hf rest
    match fuel, hf with
    | f + 1, _ => simp [escapeData, parseStrBody]
  | cons c cs ih =>
    intro fuel hf rest
    match fuel, hf with
    | f + 1, hf =>
      have hfs : cs.length < f := by
        simp only [List.length_cons] at hf
        omega
      have ihc := ih f hfs rest
      have hofn := Char.ofNat_toNat c
      rw [escapeData_cons, List.append_assoc]
      by_cases h1 : c = '"'
      · subst h1
        simp [escChar, parseStrBody, simpleEscape, ihc]
      by_cases h2 : c = '\\'
      · subst h2
        simp [escChar, parseStrBody, simpleEscape, ihc]
      by_cases h3 : c = '\n'
      · subst h3
        simp [escChar, parseStrBody, simpleEscape, ihc]
      by_cases h4 : c = '\r'
      · subst h4
        simp [escChar, parseStrBody, simpleEscape, ihc]
      by_cases h5 : c = '\t'
      · subst h5
        simp [escChar, parseStrBody, simpleEscape, ihc]
      by_cases h6 : c.toNat = 8
      · have hc : Char.ofNat 8 = c := by rw [← h6, Char.ofNat_toNat]
        simp [escChar, h1, h2, h3, h4, h5, h6, parseStrBody, simpleEscape, ihc]
        exact hc
      by_cases h7 : c.toNat = 12
      · have hc : Char.ofNat 12 = c := by rw [← h7, Char.ofNat_toNat]
        simp [escChar, h1, h2, h3, h4, h5, h6, h7, parseStrBody, simpleEscape, ihc]
        exact hc
      by_cases h8 : c.toNat < 32
      · have hp4 := parseHex4_hex4 c.toNat (by omega)
        have hns1 : ¬ (55296 ≤ c.toNat ∧ c.toNat < 56320) := by omega
        have hns2 : ¬ (56320 ≤ c.toNat ∧ c.toNat < 57344) := by omega
        simp [escChar, h1, h2, h3, h4, h5, h6, h7, h8, hex4, parseStrBody,
          hp4, hns1, hns2, hofn, ihc]
      by_cases h9 : c.toNat < 127
      · simp [escChar, h1, h2, h3, h4, h5, h6, h7, h8, h9, parseStrBody, ihc]
      by_cases h10 : c.toNat < 65536
      · have hval := char_toNat_valid c
        have hp4 := parseHex4_hex4 c.toNat h10
        have hns1 : ¬ (55296 ≤ c.toNat ∧ c.toNat < 56320) := by omega
        have hns2 : ¬ (56320 ≤ c.toNat ∧ c.toNat < 57344) := by omega
        simp [escChar, h1, h2, h3, h4, h5, h6, h7, h8, h9, h10, hex4, parseStrBody,
          hp4, hns1, hns2, hofn, ihc]
      · have hval := char_toNat_valid c
        have hmod := Nat.mod_lt (c.toNat - 65536) (show 0 < 1024 by norm_num)
        have hesc : escChar c ++ (escapeData cs ++ '"' :: rest)
            = '\\' :: 'u' :: hex4 (55296 + (c.toNat - 65536) / 1024) ++
                ('\\' :: 'u' :: hex4 (56320 + (c.toNat - 65536) % 1024) ++
                  (escapeData cs ++ '"' :: rest)) := by
          simp [escChar, h1, h2, h3, h4, h5, h6, h7, h8, h9, h10, List.append_assoc]
        rw [hesc,
          parseStrBody_surrogate_step f _ _ _ rest cs
            ⟨by omega, by omega⟩ ⟨by omega, by omega⟩ (by omega) (by omega) ihc,
          show 65536 + (55296 + (c.toNat - 65536) / 1024 - 55296) * 1024 +
              (56320 + (c.toNat - 65536) % 1024 - 56320) = c.toNat from by omega,
          hofn]

theorem mk_data (s : String) : (⟨s.data⟩ : String) = s := rfl

theorem length_lt_escape_context (k : String) (T : List Char) :
    k.data.length < (escapeData k.data ++ '"' :: T).length := by
  rw [List.length_append]
  have h := length_le_escapeData k.data
  simp only [List.length_cons]
  omega

theorem parseEntry_entryData (k v : String) (rest : List Char) :
    parseEntry (entryData k v ++ rest) = some ((k, v), rest) := by
  have hshape : entryData k v ++ rest
      = ' ' :: ' ' :: '"' :: (escapeData k.data ++ '"' ::
          (':' :: ' ' :: '"' :: (escapeData v.data ++ '"' :: rest))) := by
    simp [entryData]
  rw [hshape]
  have e1 := parseStrBody_escape k.data
      (escapeData k.data ++ '"' ::
        (':' :: ' ' :: '"' :: (escapeData v.data ++ '"' :: rest))).length
      (length_lt_escape_context k _)
      (':' :: ' ' :: '"' :: (escapeData v.data ++ '"' :: rest))
  have e2 := parseStrBody_escape v.data
      (escapeData v.data ++ '"' :: rest).length
      (length_lt_escape_context v _) rest
  simp [parseEntry, e1, e2, mk_data, -List.length_append, -List.length_cons]

theorem length_le_entriesData (m : StateMap) :
    m.length ≤ (entriesData m).length := by
  induction m with
  | nil => simp [entriesData]
  | cons kv rest ih =>
    obtain ⟨k, v⟩ := kv
    cases rest with
    | nil => simp [entriesData, entryData]
    | cons kv2 rest2 =>
      rw [show entriesData ((k, v) :: kv2 :: rest2)
          = entryData k v ++ ',' :: '\n' :: entriesData (kv2 :: rest2) from rfl,
        List.length_append]
      have h1 : 1 ≤ (entryData k v).length := by simp [entryData]
      simp only [List.length_cons] at *
      omega

theorem parseEntries_entriesData (m : StateMap) (hne : m ≠ []) :
    ∀ fuel : Nat, m.length ≤ fuel →
    parseEntries fuel (entriesData m ++ ['\n', '}']) = some m := by
  induction m with
  | nil => exact absurd rfl hne
  | cons kv rest ih =>
    intro fuel hf
    obtain ⟨k, v⟩ := kv
    match fuel, hf with
    | f + 1, hf =>
      cases rest with
      | nil =>
        rw [show entriesData [(k, v)] = entryData k v from rfl]
        simp [parseEntries, parseEntry_entryData k v ['\n', '}']]
      | cons kv2 rest2 =>
        rw [show entriesData ((k, v) :: kv2 :: rest2)
            = entryData k v ++ ',' :: '\n' :: entriesData (kv2 :: rest2) from rfl,
          List.append_assoc]
        have hrec := ih (by simp) f (by simpa using hf)
        simp [parseEntries,
          parseEntry_entryData k v
            (',' :: '\n' :: (entriesData (kv2 :: rest2) ++ ['\n', '}'])),
          hrec]

theorem entriesData_shape (k v : String) (rest : StateMap) :
    ∃ T : List Char, entriesData ((k, v) :: rest) = ' ' :: ' ' :: '"' :: T := by
  cases rest with
  | nil => exact ⟨_, rfl⟩
  | cons kv2 rest2 => exact ⟨_, rfl⟩

theorem decodeState_cons (c3 : Char) (tl : List Char) :
    decodeState ⟨'{' :: '\n' :: c3 :: tl⟩
      = parseEntries ('{' :: '\n' :: c3 :: tl).length (c3 :: tl) := by
  simp [decodeState, String.length]

/-- The codec round-trips: parsing back the exact bytes `save_state` writes
recovers the map. -/
theorem decodeState_encodeState (m : StateMap) :
    decodeState (encodeState m) = some m := by
  cases m with
  | nil => rfl
  | cons kv rest =>
    obtain ⟨k, v⟩ := kv
    obtain ⟨T, hT⟩ := entriesData_shape k v rest
    have hdata : encodeStateData ((k, v) :: rest)
        = '{' :: '\n' :: ' ' :: ' ' :: '"' :: (T ++ ['\n', '}']) := by
      rw [show encodeStateData ((k, v) :: rest)
          = '{' :: '\n' :: (entriesData ((k, v) :: rest) ++ ['\n', '}']) from rfl, hT]
      simp
    rw [encodeState, hdata, decodeState_cons,
      show ' ' :: ' ' :: '"' :: (T ++ ['\n', '}'])
        = (' ' :: ' ' :: '"' :: T) ++ ['\n', '}'] from by simp, ← hT]
    apply parseEntries_entriesData _ (by simp)
    have h1 := length_le_entriesData ((k, v) :: rest)
    have h2 : (entriesData ((k, v) :: rest)).length = 3 + T.length := by
      rw [hT]
      simp only [List.length_cons]
      omega
    simp only [List.length_cons, List.length_append, List.length_cons] at *
    omega

theorem load_after_save (fs : FS) (m : StateMap) :
    load_state (readState (save_state fs m)) = m := by
  simp [save_state, replaceStep, writeTmpStep, readState, load_state,
    decodeState_encodeState]

/-! ## Remaining helper lemmas -/

theorem filter_single (new : List (String × String)) (u snew : String)
    (p : String × String → Bool)
    (hnd : (new.map Prod.fst).Nodup) (hmem : (u, snew) ∈ new)
    (hu : p (u, snew) = true)
    (hothers : ∀ q ∈ new, q.1 ≠ u → p q = false) :
    new.filter p = [(u, snew)] := by
  induction new with
  | nil => simp at hmem
  | cons q rest ih =>
    obtain ⟨qk, qv⟩ := q
    simp only [List.map_cons, List.nodup_cons] at hnd
    by_cases hqk : qk = u
    · subst hqk
      have hqv : qv = snew := by
        rcases List.mem_cons.mp hmem with heq | hmem'
        · injection heq with e1 e2
          exact e2.symm
        · exact absurd (List.mem_map_of_mem Prod.fst hmem') hnd.1
      subst hqv
      rw [List.filter_cons_of_pos hu]
      have hrest : rest.filter p = [] := by
        rw [List.filter_eq_nil_iff]
        intro a ha
        have hane : a.1 ≠ qk := fun he =>
          hnd.1 (he ▸ List.mem_map_of_mem Prod.fst ha)
        simp [hothers a (List.mem_cons_of_mem _ ha) hane]
      rw [hrest]
    · have hmem' : (u, snew) ∈ rest := by
        rcases List.mem_cons.mp hmem with heq | hm
        · injection heq with e1 e2
          exact absurd e1.symm hqk
        · exact hm
      rw [List.filter_cons_of_neg
          (by simp [hothers (qk, qv) (List.mem_cons_self _ _) hqk]),
        ih hnd.2 hmem'
          (fun q hq hne => hothers q (List.mem_cons_of_mem _ hq) hne)]

/-! ## Claims -/

/-- C1: `interpret_availability` equals the reference classifier written
from the specification ("lower-case the text; if empty, return `unknown`;
else if any configured negative phrase is a substring, return `no_slots`;
otherwise `possible_slots`"), and `"unknown"`, `"no_slots"` and
`"possible_slots"` are the only possible outputs. -/
theorem interpret_availability_matches_spec (text : String) :
    interpret_availability text = interpretAvailabilityRef text ∧
    (interpret_availability text = "unknown" ∨
     interpret_availability text = "no_slots" ∨
     interpret_availability text = "possible_slots") := by
  constructor
  · unfold interpret_availability interpretAvailabilityRef
    by_cases h : text = ""
    · subst h
      simp [pyLower]
    · rw [if_neg h, if_neg (fun hl => h ((pyLower_eq_empty_iff text).mp hl))]
  · unfold interpret_availability
    by_cases h : text = ""
    · simp [h]
    · rw [if_neg h]
      by_cases h2 : (negatives.any fun n => pyIn n (pyLower text)) = true
      · simp [h2]
      · simp [h2]

/-- C2 counterexample: a URL with no prior entry in the State Map whose new
label is `"unknown"` DOES produce a Change Record (`(unknown, unknown)`),
because the code compares `state.get(url) != new_status` with `None` on the
left; the claim says such a URL produces no Change Record. -/
theorem diff_new_unknown_url_produces_record :
    diffStep [("https://a", "unknown")] []
      = ([("https://a", "unknown", "unknown")], [("https://a", "unknown")]) ∧
    ([("https://a", "unknown", "unknown")] :
      List (String × String × String)) ≠ [] :=
  ⟨by decide, by simp⟩

/-- C2 (amended): in the per-cycle diff step, a Change Record is produced
for a checked pair if and only if the new label differs from the prior
entry compared as optional values — in particular a URL with no prior entry
always produces a Change Record, even when its new label is `"unknown"`;
the record pairs the prior-or-`"unknown"` label with the new label, and the
State Map entry is updated to the new label whether or not a record was
produced. -/
theorem diff_record_iff_optional_prior_differs (new : List (String × String))
    (state : StateMap) (hnd : (new.map Prod.fst).Nodup) :
    (diffStep new state).1 =
      (new.filter (fun p => decide (dictGet state p.1 ≠ some p.2))).map
        (fun p => (p.1, (dictGet state p.1).getD "unknown", p.2)) ∧
    ∀ p ∈ new, dictGet (diffStep new state).2 p.1 = some p.2 :=
  ⟨diffStep_changes_eq new state hnd,
   fun p hp => diffStep_get_mem new state p.1 p.2 hnd hp⟩

/-- C2 witness: the amended characterization evaluated at a concrete
input. -/
theorem diff_record_iff_optional_prior_differs_witness :
    (diffStep [("https://a", "possible_slots")] [("https://a", "no_slots")]).1
      = [("https://a", "no_slots", "possible_slots")] ∧
    dictGet (diffStep [("https://a", "possible_slots")]
        [("https://a", "no_slots")]).2 "https://a" = some "possible_slots" :=
  ⟨((diff_record_iff_optional_prior_differs
      [("https://a", "possible_slots")] [("https://a", "no_slots")]
      (by decide)).1).trans (by decide),
   (diff_record_iff_optional_prior_differs
      [("https://a", "possible_slots")] [("https://a", "no_slots")]
      (by decide)).2 ("https://a", "possible_slots") (by decide)⟩

/-- C3: in a cycle where every checked URL's new label equals its prior
label in the State Map, `send_mail` is not called and the state file is not
rewritten: the mail call count is 0, no send outcome exists, the file
system is unchanged, and the in-memory state is unchanged. -/
theorem quiet_cycle_no_notify_no_persist (fetch : String → String)
    (cfg : MailConfig) (remote : RemoteOutcome) (now : String)
    (urls : List String) (state : StateMap) (fs : FS)
    (h : ∀ p ∈ check_all fetch urls state, dictGet state p.1 = some p.2) :
    (run_cycle fetch cfg remote now urls state fs).mailCalls = 0 ∧
    (run_cycle fetch cfg remote now urls state fs).sent = none ∧
    (run_cycle fetch cfg remote now urls state fs).fs = fs ∧
    (run_cycle fetch cfg remote now urls state fs).state = state := by
  have hd := diffStep_nochange (check_all fetch urls state) state h
  simp [run_cycle, hd]

/-- C3 witness: a concrete quiet cycle (one URL, fetch fails, prior label
already `"unknown"`) leaves the notifier uninvoked and the file system
untouched. -/
theorem quiet_cycle_no_notify_no_persist_witness :
    (∀ p ∈ check_all (fun _ => "") ["https://a"] [("https://a", "unknown")],
      dictGet [("https://a", "unknown")] p.1 = some p.2) ∧
    (run_cycle (fun _ => "") ⟨none, none, none, none⟩ RemoteOutcome.raises
        "T" ["https://a"] [("https://a", "unknown")] ⟨none, none⟩).mailCalls = 0 ∧
    (run_cycle (fun _ => "") ⟨none, none, none, none⟩ RemoteOutcome.raises
        "T" ["https://a"] [("https://a", "unknown")] ⟨none, none⟩).fs
      = (⟨none, none⟩ : FS) :=
  ⟨by decide,
   (quiet_cycle_no_notify_no_persist (fun _ => "") ⟨none, none, none, none⟩
      RemoteOutcome.raises "T" ["https://a"] [("https://a", "unknown")]
      ⟨none, none⟩ (by decide)).1,
   (quiet_cycle_no_notify_no_persist (fun _ => "") ⟨none, none, none, none⟩
      RemoteOutcome.raises "T" ["https://a"] [("https://a", "unknown")]
      ⟨none, none⟩ (by decide)).2.2.1⟩

/-- C4: in a cycle where exactly one checked URL's label changes, from
`"no_slots"` to `"possible_slots"` (every other checked URL keeps its prior
label), `send_mail` is called exactly once, the message contains that URL
and the strings `"no_slots"` and `"possible_slots"`, and after the cycle
the State Map entry for the URL is `"possible_slots"` and the updated map
is persisted via `save_state`. -/
theorem single_flip_notifies_once_and_persists (fetch : String → String)
    (cfg : MailConfig) (remote : RemoteOutcome) (now : String)
    (urls : List String) (state : StateMap) (fs : FS) (u : String)
    (hmem : (u, "possible_slots") ∈ check_all fetch urls state)
    (hold : dictGet state u = some "no_slots")
    (hothers : ∀ p ∈ check_all fetch urls state, p.1 ≠ u →
      dictGet state p.1 = some p.2) :
    (run_cycle fetch cfg remote now urls state fs).mailCalls = 1 ∧
    (∃ msg, (run_cycle fetch cfg remote now urls state fs).message = some msg ∧
      pyIn u msg = true ∧ pyIn "no_slots" msg = true ∧
      pyIn "possible_slots" msg = true) ∧
    dictGet (run_cycle fetch cfg remote now urls state fs).state u
      = some "possible_slots" ∧
    (run_cycle fetch cfg remote now urls state fs).fs
      = save_state fs (run_cycle fetch cfg remote now urls state fs).state ∧
    (run_cycle fetch cfg remote now urls state fs).fs.stateFile
      = some (encodeState
          (run_cycle fetch cfg remote now urls state fs).state) := by
  have hnd := check_all_nodup fetch urls state
  have hchanges : (diffStep (check_all fetch urls state) state).1
      = [(u, "no_slots", "possible_slots")] := by
    rw [diffStep_changes_eq _ _ hnd,
      filter_single (check_all fetch urls state) u "possible_slots" _ hnd hmem
        (by simp [hold])
        (fun q hq hne => by simp [hothers q hq hne])]
    simp [hold]
  have hstate : dictGet (diffStep (check_all fetch urls state) state).2 u
      = some "possible_slots" :=
    diffStep_get_mem _ _ u "possible_slots" hnd hmem
  obtain ⟨hm1, hm2, hm3⟩ := build_message_mentions now
    [(u, "no_slots", "possible_slots")] u "no_slots" "possible_slots"
    (List.mem_singleton.mpr rfl)
  refine ⟨?_, ⟨build_message now [(u, "no_slots", "possible_slots")],
      ?_, hm1, hm2, hm3⟩, ?_, ?_, ?_⟩ <;>
    simp [run_cycle, hchanges, hstate, save_state, writeTmpStep, replaceStep]

/-- C4 witness: the single-flip cycle evaluated at a concrete input. -/
theorem single_flip_notifies_once_and_persists_witness :
    (run_cycle (fun _ => "Appointments open now") ⟨none, none, none, none⟩
        RemoteOutcome.raises "T" ["https://a"] [("https://a", "no_slots")]
        ⟨none, none⟩).mailCalls = 1 ∧
    dictGet (run_cycle (fun _ => "Appointments open now")
        ⟨none, none, none, none⟩ RemoteOutcome.raises "T" ["https://a"]
        [("https://a", "no_slots")] ⟨none, none⟩).state "https://a"
      = some "possible_slots" :=
  ⟨(single_flip_notifies_once_and_persists (fun _ => "Appointments open now")
      ⟨none, none, none, none⟩ RemoteOutcome.raises "T" ["https://a"]
      [("https://a", "no_slots")] ⟨none, none⟩ "https://a"
      (by decide) (by decide) (by decide)).1,
   (single_flip_notifies_once_and_persists (fun _ => "Appointments open now")
      ⟨none, none, none, none⟩ RemoteOutcome.raises "T" ["https://a"]
      [("https://a", "no_slots")] ⟨none, none⟩ "https://a"
      (by decide) (by decide) (by decide)).2.2.1⟩

/-- C5: in every cycle that produced at least one Change Record, the
updated State Map is persisted via `save_state`, whatever the Mailjet
outcome was: the resulting file system and state do not depend on the
remote outcome at all. -/
theorem persistence_independent_of_mail_outcome (fetch : String → String)
    (cfg : MailConfig) (r1 r2 : RemoteOutcome) (now : String)
    (urls : List String) (state : StateMap) (fs : FS)
    (h : (run_cycle fetch cfg r1 now urls state fs).changes ≠ []) :
    (run_cycle fetch cfg r1 now urls state fs).fs
      = save_state fs (run_cycle fetch cfg r1 now urls state fs).state ∧
    (run_cycle fetch cfg r1 now urls state fs).fs.stateFile
      = some (encodeState (run_cycle fetch cfg r1 now urls state fs).state) ∧
    (run_cycle fetch cfg r1 now urls state fs).fs
      = (run_cycle fetch cfg r2 now urls state fs).fs ∧
    (run_cycle fetch cfg r1 now urls state fs).state
      = (run_cycle fetch cfg r2 now urls state fs).state := by
  have hch : (run_cycle fetch cfg r1 now urls state fs).changes
      = (diffStep (check_all fetch urls state) state).1 := by
    simp only [run_cycle]
    split <;> rfl
  have hne : ((diffStep (check_all fetch urls state) state).1).isEmpty = false := by
    rw [List.isEmpty_eq_false]
    rw [hch] at h
    exact h
  refine ⟨?_, ?_, ?_, ?_⟩ <;>
    simp [run_cycle, hne, save_state, writeTmpStep, replaceStep]

/-- C5 witness: a concrete changing cycle persists the same updated state
whether the Mailjet call succeeds or raises. -/
theorem persistence_independent_of_mail_outcome_witness :
    (run_cycle (fun _ => "") ⟨none, none, none, none⟩
        (RemoteOutcome.response (some 200)) "T" ["https://a"] []
        ⟨none, none⟩).fs.stateFile
      = some (encodeState (run_cycle (fun _ => "") ⟨none, none, none, none⟩
          (RemoteOutcome.response (some 200)) "T" ["https://a"] []
          ⟨none, none⟩).state) ∧
    (run_cycle (fun _ => "") ⟨none, none, none, none⟩
        (RemoteOutcome.response (some 200)) "T" ["https://a"] []
        ⟨none, none⟩).fs
      = (run_cycle (fun _ => "") ⟨none, none, none, none⟩
          RemoteOutcome.raises "T" ["https://a"] [] ⟨none, none⟩).fs :=
  ⟨(persistence_independent_of_mail_outcome (fun _ => "")
      ⟨none, none, none, none⟩ (RemoteOutcome.response (some 200))
      RemoteOutcome.raises "T" ["https://a"] [] ⟨none, none⟩
      (by decide)).2.1,
   (persistence_independent_of_mail_outcome (fun _ => "")
      ⟨none, none, none, none⟩ (RemoteOutcome.response (some 200))
      RemoteOutcome.raises "T" ["https://a"] [] ⟨none, none⟩
      (by decide)).2.2.1⟩

/-- C6: `load_state` is a total function (it never raises): it returns the
empty map when the file is missing or unreadable (`open` raised) and when
the content does not parse (`json.load` raised), and it returns the
persisted State Map when the file contains one. -/
theorem load_state_never_raises (r : ReadResult) :
    (r = ReadResult.failure → load_state r = []) ∧
    (∀ content, r = ReadResult.success content → decodeState content = none →
      load_state r = []) ∧
    (∀ m : StateMap, r = ReadResult.success (encodeState m) →
      load_state r = m) := by
  refine ⟨?_, ?_, ?_⟩
  · rintro rfl
    rfl
  · rintro content rfl hdec
    simp [load_state, hdec]
  · rintro m rfl
    simp [load_state, decodeState_encodeState]

/-- C6 witness: `load_state` evaluated on a missing file, on unparsable
content, and on a persisted map. -/
theorem load_state_never_raises_witness :
    load_state ReadResult.failure = [] ∧
    load_state (ReadResult.success "not json") = [] ∧
    load_state (ReadResult.success (encodeState [("https://a", "no_slots")]))
      = [("https://a", "no_slots")] :=
  ⟨(load_state_never_raises ReadResult.failure).1 rfl,
   (load_state_never_raises (ReadResult.success "not json")).2.1
      "not json" rfl (by decide),
   (load_state_never_raises
      (ReadResult.success (encodeState [("https://a", "no_slots")]))).2.2
      [("https://a", "no_slots")] rfl⟩

/-- C7: persistence round-trips — `load_state` after `save_state m`
returns `m` (hence saving what was just loaded rewrites identical file
content); `save_state` writes the full serialized map to the temporary file
without touching the state file, and only the atomic rename step replaces
the state file, which afterwards holds the complete serialization — so the
state file only ever holds the old or the new complete content. -/
theorem save_load_roundtrip_atomic (fs : FS) (m : StateMap) :
    load_state (readState (save_state fs m)) = m ∧
    (writeTmpStep fs m).stateFile = fs.stateFile ∧
    (writeTmpStep fs m).tmpFile = some (encodeState m) ∧
    (save_state fs m).stateFile = some (encodeState m) ∧
    (save_state (save_state fs m)
        (load_state (readState (save_state fs m)))).stateFile
      = (save_state fs m).stateFile := by
  refine ⟨load_after_save fs m, rfl, rfl, rfl, ?_⟩
  rw [load_after_save fs m]
  rfl

/-- C8: `send_mail` is total and reports failure exactly when the
credential check fails (in which case no send is attempted) or the remote
call raises; any response from the remote call — whatever its status
code — is reported as success. -/
theorem send_mail_failure_conditions (cfg : MailConfig)
    (remote : RemoteOutcome) :
    ((send_mail cfg remote).1 = false ↔
      (mjConfigured cfg = false ∨ remote = RemoteOutcome.raises)) ∧
    (mjConfigured cfg = false → (send_mail cfg remote).2 = false) := by
  unfold send_mail
  by_cases h : mjConfigured cfg = true
  · cases remote <;> simp [h]
  · rw [Bool.not_eq_true] at h
    simp [h]

/-- C8 witness: with a missing public key, no send is attempted and failure
is reported. -/
theorem send_mail_failure_conditions_witness :
    (send_mail ⟨none, some "k", some "s", some "r"⟩
        (RemoteOutcome.response (some 200))).1 = false ∧
    (send_mail ⟨none, some "k", some "s", some "r"⟩
        (RemoteOutcome.response (some 200))).2 = false :=
  ⟨(send_mail_failure_conditions ⟨none, some "k", some "s", some "r"⟩
      (RemoteOutcome.response (some 200))).1.mpr (Or.inl (by decide)),
   (send_mail_failure_conditions ⟨none, some "k", some "s", some "r"⟩
      (RemoteOutcome.response (some 200))).2 (by decide)⟩

/-- C9: `fetch_page` is total (never raises): it returns the page text on
success and the empty string on a non-success HTTP status, a network
error/timeout, or no response at all; the classifier maps those empty
results to `"unknown"`; and only the first attempt's outcome matters — the
fetch never retries. -/
theorem fetch_page_never_raises_no_retry (url : String) (t : String)
    (responses : List HttpOutcome) :
    fetch_page url (HttpOutcome.success t :: responses) = t ∧
    fetch_page url (HttpOutcome.httpError :: responses) = "" ∧
    fetch_page url (HttpOutcome.netError :: responses) = "" ∧
    fetch_page url [] = "" ∧
    interpret_availability
      (fetch_page url (HttpOutcome.httpError :: responses)) = "unknown" ∧
    interpret_availability
      (fetch_page url (HttpOutcome.netError :: responses)) = "unknown" ∧
    (∀ (o : HttpOutcome) (rest rest' : List HttpOutcome),
      fetch_page url (o :: rest) = fetch_page url (o :: rest')) :=
  ⟨rfl, rfl, rfl, rfl, rfl, rfl, fun o _ _ => by cases o <;> rfl⟩

/-- C10: `check_all` ignores its `last_state` argument — any two prior
State Maps give identical results for the same fetched contents — and the
result has exactly one entry per stripped non-empty URL: its keys are
duplicate-free and are exactly the non-empty stripped URLs. -/
theorem check_all_independent_of_last_state (fetch : String → String)
    (urls : List String) (s1 s2 : StateMap) :
    check_all fetch urls s1 = check_all fetch urls s2 ∧
    ((check_all fetch urls s1).map Prod.fst).Nodup ∧
    (∀ u, u ∈ (check_all fetch urls s1).map Prod.fst ↔
      (u ≠ "" ∧ u ∈ urls.map pyStrip)) :=
  ⟨rfl, check_all_nodup fetch urls s1,
   fun u => check_all_keys fetch urls s1 u⟩

end F1Monitor
